import Mathlib

/-!
Verification of the ingestion and retrieval pipeline of the document-QA
repository (PDF OCR → text correction → chunking → vector indexing →
similarity search → chat).

Python text values are modelled as `String` where only whole-string
operations occur, and as `List Char` where character-level slicing occurs
(`chunk_text`); Python `text[a:b]` becomes `pySlice`.  External
collaborators (the vision / chat models, the vector store) are modelled by
explicit oracle parameters or by their documented contracts; fallible model
calls return `PyResult`.
-/

namespace Hackathon

/-- Outcome of a Python call that may raise: `ok v` is a normal return,
`exn msg` an exception whose `str(e)` is `msg`. -/
inductive PyResult (α : Type) where
  | ok (v : α)
  | exn (msg : String)
deriving DecidableEq, Repr

/-- Python index clamping for `s[a:b]`: a negative index counts from the
end (clamped below at 0), a non-negative one is clamped above at `n`. -/
def pyIndex (n : Nat) (i : Int) : Nat :=
  if i < 0 then ((n : Int) + i).toNat else min i.toNat n

/-- Python slice `xs[a:b]` on a character sequence. -/
def pySlice (xs : List Char) (a b : Int) : List Char :=
  (xs.take (pyIndex xs.length b)).drop (pyIndex xs.length a)

/-- The `while start < len(text)` loop of `chunk_text`
(src/knowledge_base.py lines 488-501) and of the method `_chunk_text`
(lines 133-146), which share this text verbatim.  `start` is an `Int`
because Python's `start = end - overlap` can go negative.  The loop need
not terminate, so it consumes explicit `fuel`; `none` means the loop was
still running after `fuel` iterations. -/
def chunkLoop (text : List Char) (chunk_size overlap : Nat) :
    Nat → Int → List (List Char) → Option (List (List Char))
  | 0, _, _ => none
  | fuel + 1, start, chunks =>
    if start < (text.length : Int) then
      let e : Int := min (start + (chunk_size : Int)) (text.length : Int)
      let chunks' := chunks ++ [pySlice text start e]
      if (text.length : Int) ≤ e then some chunks'
      else chunkLoop text chunk_size overlap fuel (e - (overlap : Int)) chunks'
    else some chunks

/-- Module-level `chunk_text` (src/knowledge_base.py lines 460-501):
validation raises `ValueError` for non-positive `chunk_size` or negative
`overlap`, then runs the chunking loop.  `Except.error` is the raised
`ValueError`; `Except.ok none` means validation passed but the loop did
not finish within `fuel` iterations. -/
def chunk_text (fuel : Nat) (text : List Char) (chunk_size overlap : Int) :
    Except String (Option (List (List Char))) :=
  if chunk_size ≤ 0 then Except.error "chunk_size must be positive"
  else if overlap < 0 then Except.error "overlap must be non-negative"
  else Except.ok (chunkLoop text chunk_size.toNat overlap.toNat fuel 0 [])

/-- The same loop as a structurally terminating function, defined for
`overlap < chunk_size` (where `start` provably advances by
`chunk_size - overlap ≥ 1` each iteration and never goes negative).
`goodChunks_eq_chunkLoop` proves it equal to the fuel-based source loop. -/
def goodChunks (text : List Char) (size overlap : Nat) (h : overlap < size)
    (start : Nat) : List (List Char) :=
  if hs : start < text.length then
    if hle : text.length ≤ start + size then
      [(text.take (start + size)).drop start]
    else
      ((text.take (start + size)).drop start) ::
        goodChunks text size overlap h (start + size - overlap)
  else []
termination_by text.length - start
decreasing_by omega

/-- Concatenating the first chunk with each later chunk minus its first
`overlap` characters (the reconstruction operation of the spec). -/
def reassemble (overlap : Nat) : List (List Char) → List Char
  | [] => []
  | c :: rest => c ++ (rest.map (fun x => x.drop overlap)).flatten

/-- Python `str.strip()`: remove leading and trailing whitespace. -/
def pyStrip (s : String) : String :=
  ⟨((s.data.dropWhile Char.isWhitespace).reverse.dropWhile
      Char.isWhitespace).reverse⟩

/-- Python `str.startswith(pre)`. -/
def pyStartsWith (s pre : String) : Bool :=
  pre.data.isPrefixOf s.data

/-- Python `str.lower()`. -/
def pyLower (s : String) : String :=
  ⟨s.data.map Char.toLower⟩

/-- Python `s[:n]`. -/
def pyTake (s : String) (n : Nat) : String :=
  ⟨s.data.take n⟩

/-- Python `needle in hay` (substring containment). -/
def strContains (hay needle : String) : Bool :=
  (List.range (hay.data.length + 1)).any
    (fun i => needle.data.isPrefixOf (hay.data.drop i))

/-- One call of the chat-completions model inside `correct_text`:
an exception, a `None` content, or a string content. -/
def CorrectorModel : Type := String → PyResult (Option String)

/-- `correct_text` (src/text_corrector.py lines 68-131).  The model call is
the oracle `model`; the function skips when the input is empty or
whitespace-only, falls back to the input on exception / `None` / empty
stripped content, and otherwise returns the stripped model content. -/
def correct_text (model : CorrectorModel) (text : String) : String :=
  if text = "" ∨ pyStrip text = "" then text
  else
    match model text with
    | PyResult.exn _ => text
    | PyResult.ok none => text
    | PyResult.ok (some corrected) =>
      if (pyStrip corrected).length = 0 then text else pyStrip corrected

/-- One attempt of the vision model inside `extract_text_with_vision`:
either the response content, or an exception whose `str(e)` is carried. -/
inductive VisionResult where
  | success (content : String)
  | failure (error_str : String)
deriving DecidableEq, Repr

/-- The rate-limit test of `extract_text_with_vision`
(src/ocr.py lines 155-156): `"429" in error_str or "RateLimitReached" in
error_str or "Exceeded free tier" in error_str or "rate" in
error_str.lower()`. -/
def isRateLimitError (e : String) : Bool :=
  strContains e "429" || strContains e "RateLimitReached" ||
    strContains e "Exceeded free tier" || strContains (pyLower e) "rate"

/-- The `for attempt in range(max_retries)` loop of
`extract_text_with_vision` (src/ocr.py lines 131-171; the async variant at
lines 197-237 is textually identical up to `await`).  `oracle attempt` is
the model response of that attempt.  Returns the extracted text together
with the list of backoff sleeps performed, in seconds
(`base_wait_time * 2 ** attempt` with `base_wait_time = 1`). -/
def extractLoop (oracle : Nat → VisionResult) :
    (remaining : Nat) → (attempt : Nat) → (waits : List Nat) →
      String × List Nat
  | 0, _, waits => ("[OCR Error: Unknown error after retries]", waits)
  | r + 1, attempt, waits =>
    match oracle attempt with
    | VisionResult.success content => (pyStrip content, waits)
    | VisionResult.failure e =>
      if isRateLimitError e then
        if 0 < r then
          extractLoop oracle r (attempt + 1) (waits ++ [2 ^ attempt])
        else ("[OCR Error: Error code: 429 - " ++ e ++ "]", waits)
      else ("[OCR Error: " ++ e ++ "]", waits)

/-- `extract_text_with_vision` with `max_retries = 3` (src/ocr.py lines
108-171): first component the returned text, second the backoff sleeps
performed.  `remaining = max_retries - attempt` counts the attempts left,
so `attempt < max_retries` is `0 < remaining` and the retry guard
`attempt < max_retries - 1` is `1 < remaining`.  The function is total:
every exception of the model call is caught and converted to a sentinel
string. -/
def extract_text_with_vision (oracle : Nat → VisionResult) :
    String × List Nat :=
  extractLoop oracle 3 0 []

/-- A page result (src/models.py `PageOCR`): 1-indexed page number and the
extracted Markdown text. -/
structure PageOCR where
  page_number : Nat
  MD_text : String
deriving DecidableEq, Repr

/-- `_process_single_page_async` (src/ocr.py lines 351-406) for the page
with 0-indexed `page_num`, whose per-attempt vision responses are
`pageVision`.  The `try/except` around the whole body and around
`correct_text` are unreachable in the embedding because
`extract_text_with_vision` and `correct_text` are total (they catch every
model exception internally). -/
def process_single_page (corrM : CorrectorModel)
    (pageVision : Nat → VisionResult) (page_num : Nat) : PageOCR :=
  let md_text := (extract_text_with_vision pageVision).1
  if md_text = "" ∨ pyStartsWith md_text "[OCR Error" then
    ⟨page_num + 1, md_text⟩
  else
    let corrected := correct_text corrM md_text
    if corrected ≠ "" ∧ 0 < (pyStrip corrected).length then
      ⟨page_num + 1, corrected⟩
    else ⟨page_num + 1, md_text⟩

/-- `process_pdf_async` (src/ocr.py lines 285-344) for an `N`-page
document: one task per page, gathered in input order (the contract of
`asyncio.gather`, which returns results in the order the awaitables were
passed regardless of completion order).  The `isinstance(result,
Exception)` branch after the gather is unreachable in the embedding
because each page task is total. -/
def process_pdf_async (corrM : CorrectorModel)
    (vision : Nat → Nat → VisionResult) (page_count : Nat) : List PageOCR :=
  (List.range page_count).map
    (fun i => process_single_page corrM (vision i) i)

/-- `process_pdf` (src/ocr.py lines 244-282), the synchronous pipeline:
extracts each page's text and applies `correct_text` to it
unconditionally. -/
def process_pdf (corrM : CorrectorModel)
    (vision : Nat → Nat → VisionResult) (page_count : Nat) : List PageOCR :=
  (List.range page_count).map
    (fun i =>
      ⟨i + 1, correct_text corrM (extract_text_with_vision (vision i)).1⟩)

/-- `KnowledgeBase._generate_id` (src/knowledge_base.py lines 148-161):
the MD5 hex digest of `f"{pdf_name}::{page_number}::{chunk_index}"`.  The
digest function itself (`hashlib.md5(...).hexdigest()`) is standard
library code, taken as the parameter `md5hex`; every theorem below holds
for an arbitrary digest function. -/
def generate_id (md5hex : String → String) (pdf_name : String)
    (page_number chunk_index : Nat) : String :=
  md5hex (pdf_name ++ "::" ++ toString page_number ++ "::" ++
    toString chunk_index)

/-- `KnowledgeBase._chunk_text` at the configured defaults
`CHUNK_SIZE = 1000`, `CHUNK_OVERLAP = 200` (src/config.py lines 71-74):
the same loop as `chunk_text`, which terminates at these parameters;
`goodChunks_eq_chunkLoop` ties this to the fuel-based source loop. -/
def pageChunks (text : List Char) : List (List Char) :=
  goodChunks text 1000 200 (by norm_num) 0

/-- The metadata stored with each chunk vector
(src/knowledge_base.py lines 377-382). -/
structure ChunkMeta where
  pdf_name : String
  page_number : Nat
  content : List Char
  chunk_index : Nat
deriving DecidableEq, Repr

/-- The `(id, (embedding, metadata))` records built by
`KnowledgeBase.ingest_pdf` (src/knowledge_base.py lines 363-388) for one
document; `embed` is the local embedding model, abstract here. -/
def vectorsFor {V : Type} (md5hex : String → String) (embed : List Char → V)
    (pdf_name : String) (pages : List PageOCR) :
    List (String × (V × ChunkMeta)) :=
  (pages.map (fun page =>
    (pageChunks page.MD_text.data).enum.map (fun ic =>
      (generate_id md5hex pdf_name page.page_number ic.1,
        (embed ic.2, ⟨pdf_name, page.page_number, ic.2, ic.1⟩))))).flatten

/-- The vector-store upsert contract (spec §4.7: "insert or overwrite the
entry at `id`"), modelled on an association list: overwrite every entry
whose key matches, else append. -/
def upsertOne {β : Type} (st : List (String × β)) (v : String × β) :
    List (String × β) :=
  if v.1 ∈ st.map Prod.fst then
    st.map (fun p => if p.1 = v.1 then v else p)
  else st ++ [v]

/-- `KnowledgeBase.ingest_pdf` acting on the store: upsert every chunk
record of the document in order (the batching into groups of 100 does not
change the sequence of upserts). -/
def ingest_pdf {V : Type} (md5hex : String → String)
    (embed : List Char → V) (pdf_name : String) (pages : List PageOCR)
    (store : List (String × (V × ChunkMeta))) :
    List (String × (V × ChunkMeta)) :=
  (vectorsFor md5hex embed pdf_name pages).foldl upsertOne store

/-- The keys (vector ids) of a store. -/
def storeKeys {β : Type} (st : List (String × β)) : List String :=
  st.map Prod.fst

/-- The key list resulting from upserting the ids `I` in order into a
store whose key list is `K`. -/
def addKeys (K I : List String) : List String :=
  I.foldl (fun K k => if k ∈ K then K else K ++ [k]) K

/-- The ids `ingest_pdf` generates, as a function of the document name and
the per-page `(page_number, chunk_count)` shape alone. -/
def idsFromShape (md5hex : String → String) (pdf_name : String)
    (shape : List (Nat × Nat)) : List String :=
  (shape.map (fun pc =>
    (List.range pc.2).map (generate_id md5hex pdf_name pc.1))).flatten

/-- A retrieved source (src/models.py `Source`). -/
structure Source where
  pdf_name : String
  page_number : Nat
  content : String
deriving DecidableEq, Repr

/-- One match returned by the vector index query, with its similarity
score and the metadata stored at ingestion. -/
structure QueryMatch where
  score : ℚ
  pdf_name : String
  page_number : Nat
  content : String
deriving DecidableEq, Repr

/-- The loop body of `KnowledgeBase.search` (src/knowledge_base.py lines
244-256): truncate the stored content at `max_content_length` characters,
appending "..." when cut, and project to a `Source`. -/
def matchToSource (max_content_length : Nat) (m : QueryMatch) : Source :=
  ⟨m.pdf_name, m.page_number,
    if max_content_length < m.content.length then
      pyTake m.content max_content_length ++ "..."
    else m.content⟩

/-- `KnowledgeBase.search` (src/knowledge_base.py lines 215-259) given the
matches the index returned for the query embedding.  The index query
itself is the external vector store, whose contract (spec §4.7: at most
`top_k` matches, ordered by similarity descending) appears as hypotheses
of `search_spec`. -/
def search (qmatches : List QueryMatch) (max_content_length : Nat) :
    List Source :=
  qmatches.map (matchToSource max_content_length)

/-- A chat turn (src/models.py `ChatMessage`). -/
structure ChatMessage where
  role : String
  content : String
deriving DecidableEq, Repr

/-- The chat endpoint response (src/models.py `ChatResponse`). -/
structure ChatResponse where
  sources : List Source
  answer : String
deriving DecidableEq, Repr

/-- `chat` (src/chat.py lines 134-171).  `searchO` is the knowledge-base
search (query and `top_k`, which the code fixes to
`settings.TOP_K_RESULTS`, default 5); `genO` is `_generate_response`,
which receives the whole history and the retrieved sources. -/
def chat (searchO : String → Nat → List Source)
    (genO : List ChatMessage → List Source → String) (top_k : Nat)
    (messages : List ChatMessage) : ChatResponse :=
  let user_messages := messages.filter (fun m => m.role == "user")
  match user_messages.getLast? with
  | none => ⟨[], "No user message found in chat history."⟩
  | some m =>
    let sources := searchO m.content top_k
    ⟨sources, genO messages sources⟩

/-- A correction model that always answers "FIXED" (used in concrete
counterexamples). -/
def alwaysFixed : CorrectorModel := fun _ => PyResult.ok (some "FIXED")

/-- A vision oracle whose every attempt on every page raises a
non-rate-limit exception with message "boom". -/
def alwaysBoom : Nat → Nat → VisionResult :=
  fun _ _ => VisionResult.failure "boom"

theorem pySlice_window (text : List Char) (start size : Nat)
    (hs : start < text.length) :
    pySlice text (start : Int)
      (min ((start : Int) + (size : Int)) (text.length : Int)) =
      (text.take (start + size)).drop start := by
  have hcast : min ((start : Int) + (size : Int)) (text.length : Int) =
      ((min (start + size) text.length : Nat) : Int) := by
    push_cast; rfl
  rw [hcast]
  simp only [pySlice, pyIndex]
  have h1 : ¬ (((min (start + size) text.length : Nat) : Int) < 0) :=
    not_lt.mpr (Int.natCast_nonneg _)
  have h2 : ¬ ((start : Int) < 0) := not_lt.mpr (Int.natCast_nonneg _)
  rw [if_neg h1, if_neg h2]
  simp only [Int.toNat_ofNat]
  have h3 : min (min (start + size) text.length) text.length =
      min (start + size) text.length := by omega
  have h4 : min start text.length = start := by omega
  rw [h3, h4]
  congr 1
  rw [List.take_eq_take]
  omega

theorem goodChunks_eq_chunkLoop (text : List Char) (size overlap : Nat)
    (h : overlap < size) :
    ∀ fuel start acc, text.length - start < fuel →
      chunkLoop text size overlap fuel (start : Int) acc =
        some (acc ++ goodChunks text size overlap h start) := by
  intro fuel
  induction fuel with
  | zero => intro start acc hf; omega
  | succ n ih =>
    intro start acc hf
    rw [goodChunks]
    by_cases hs : start < text.length
    · rw [dif_pos hs]
      simp only [chunkLoop]
      rw [if_pos (by exact_mod_cast hs)]
      rw [pySlice_window text start size hs]
      by_cases hle : text.length ≤ start + size
      · rw [if_pos (by push_cast; omega), dif_pos hle]
      · rw [if_neg (by push_cast; omega), dif_neg hle]
        have hmin : min ((start : Int) + (size : Int)) (text.length : Int) -
            (overlap : Int) = ((start + size - overlap : Nat) : Int) := by
          push_cast; omega
        rw [hmin, ih (start + size - overlap) _ (by omega)]
        simp
    · rw [dif_neg hs]
      simp only [chunkLoop]
      rw [if_neg (show ¬ ((start : Int) < (text.length : Int)) from by
        exact_mod_cast hs)]
      simp

theorem take_drop_append (l : List Char) (j e : Nat) (hje : j ≤ e) :
    (l.take e).drop j ++ l.drop e = l.drop j := by
  have h := @List.drop_append_eq_append_drop _ (l.take e) (l.drop e) j
  rw [List.take_append_drop] at h
  by_cases hl : l.length ≤ j
  · rw [@List.drop_eq_nil_of_le _ (l.take e) j (by simp; omega),
      List.drop_eq_nil_of_le hl, List.drop_eq_nil_of_le (by omega)]
    rfl
  · have hj : j ≤ (l.take e).length := by simp; omega
    rw [h, Nat.sub_eq_zero_of_le hj, List.drop_zero]

theorem goodChunks_get? (text : List Char) (size overlap : Nat)
    (h : overlap < size) :
    ∀ i start, i < (goodChunks text size overlap h start).length →
      (goodChunks text size overlap h start).get? i =
        some ((text.take (start + i * (size - overlap) + size)).drop
          (start + i * (size - overlap))) := by
  intro i
  induction i with
  | zero =>
    intro start hi
    rw [goodChunks] at hi ⊢
    by_cases hs : start < text.length
    · rw [dif_pos hs] at hi ⊢
      by_cases hle : text.length ≤ start + size
      · rw [dif_pos hle]; simp
      · rw [dif_neg hle]; simp
    · rw [dif_neg hs] at hi; simp at hi
  | succ i ih =>
    intro start hi
    rw [goodChunks] at hi ⊢
    by_cases hs : start < text.length
    · rw [dif_pos hs] at hi ⊢
      by_cases hle : text.length ≤ start + size
      · rw [dif_pos hle] at hi; simp at hi
      · rw [dif_neg hle] at hi ⊢
        rw [List.get?_cons_succ]
        rw [ih (start + size - overlap) (by simpa using hi)]
        have harith : start + size - overlap + i * (size - overlap) =
            start + (i + 1) * (size - overlap) := by
          rw [Nat.succ_mul]
          omega
        rw [harith]
    · rw [dif_neg hs] at hi; simp at hi

theorem goodChunks_eq_nil_iff (text : List Char) (size overlap : Nat)
    (h : overlap < size) (start : Nat) :
    goodChunks text size overlap h start = [] ↔ text.length ≤ start := by
  rw [goodChunks]
  by_cases hs : start < text.length
  · rw [dif_pos hs]
    by_cases hle : text.length ≤ start + size
    · rw [dif_pos hle]; simp; omega
    · rw [dif_neg hle]; simp; omega
  · rw [dif_neg hs]; simp; omega

theorem goodChunks_length_mem (text : List Char) (size overlap : Nat)
    (h : overlap < size) (start : Nat) :
    ∀ c ∈ goodChunks text size overlap h start, c.length ≤ size := by
  intro c hc
  obtain ⟨⟨i, hi⟩, hg⟩ := List.mem_iff_get.mp hc
  have hq : (goodChunks text size overlap h start).get? i = some c := by
    rw [List.get?_eq_get hi, hg]
  rw [goodChunks_get? text size overlap h i start hi] at hq
  have hc' := Option.some.inj hq
  rw [← hc']
  simp
  omega

theorem goodChunks_getLast? (text : List Char) (size overlap : Nat)
    (h : overlap < size) :
    ∀ n start, text.length - start ≤ n → start < text.length →
      (goodChunks text size overlap h start).getLast? =
        some (text.drop (start +
          ((goodChunks text size overlap h start).length - 1) *
            (size - overlap))) := by
  intro n
  induction n with
  | zero => intro start hn hs; omega
  | succ n ih =>
    intro start hn hs
    rw [goodChunks]
    rw [dif_pos hs]
    by_cases hle : text.length ≤ start + size
    · rw [dif_pos hle]
      simp [List.take_of_length_le hle]
    · rw [dif_neg hle]
      have hs' : start + size - overlap < text.length := by omega
      have hrec := ih (start + size - overlap) (by omega) hs'
      have hne : goodChunks text size overlap h (start + size - overlap) ≠
          [] := by
        rw [ne_eq, goodChunks_eq_nil_iff]
        omega
      cases hrest : goodChunks text size overlap h (start + size - overlap)
        with
      | nil => exact absurd hrest hne
      | cons r rs =>
        rw [List.getLast?_cons_cons]
        rw [hrest] at hrec
        rw [hrec]
        have hlen : (r :: rs).length = rs.length + 1 := rfl
        simp only [List.length_cons]
        have harith : start + size - overlap + (rs.length + 1 - 1) *
            (size - overlap) = start + (rs.length + 1 + 1 - 1) *
            (size - overlap) := by
          simp only [Nat.add_sub_cancel]
          rw [Nat.succ_mul]
          omega
        rw [harith]

theorem goodChunks_flatten_drop (text : List Char) (size overlap : Nat)
    (h : overlap < size) :
    ∀ n start, text.length - start ≤ n →
      ((goodChunks text size overlap h start).map
        (fun c => c.drop overlap)).flatten = text.drop (start + overlap) := by
  intro n
  induction n with
  | zero =>
    intro start hn
    have hs : ¬ start < text.length := by omega
    rw [goodChunks, dif_neg hs]
    simp [List.drop_eq_nil_of_le (show text.length ≤ start + overlap by omega)]
  | succ n ih =>
    intro start hn
    rw [goodChunks]
    by_cases hs : start < text.length
    · rw [dif_pos hs]
      by_cases hle : text.length ≤ start + size
      · rw [dif_pos hle]
        simp [List.take_of_length_le hle, List.drop_drop]
      · rw [dif_neg hle]
        simp only [List.map_cons, List.flatten_cons]
        rw [ih (start + size - overlap) (by omega)]
        have h1 : start + size - overlap + overlap = start + size := by omega
        rw [h1, List.drop_drop]
        exact take_drop_append text (start + overlap) (start + size) (by omega)
    · rw [dif_neg hs]
      simp [List.drop_eq_nil_of_le
        (show text.length ≤ start + overlap by omega)]

theorem goodChunks_reassemble (text : List Char) (size overlap : Nat)
    (h : overlap < size) (start : Nat) :
    reassemble overlap (goodChunks text size overlap h start) =
      text.drop start := by
  rw [goodChunks]
  by_cases hs : start < text.length
  · rw [dif_pos hs]
    by_cases hle : text.length ≤ start + size
    · rw [dif_pos hle]
      simp [reassemble, List.take_of_length_le hle]
    · rw [dif_neg hle]
      simp only [reassemble]
      rw [goodChunks_flatten_drop text size overlap h text.length
        (start + size - overlap) (by omega)]
      have h1 : start + size - overlap + overlap = start + size := by omega
      rw [h1]
      exact take_drop_append text start (start + size) (by omega)
  · rw [dif_neg hs]
    simp [reassemble, List.drop_eq_nil_of_le (show text.length ≤ start by
      omega)]

theorem chunkLoop_stuck (fuel : Nat) :
    ∀ acc, chunkLoop ['a', 'b'] 1 1 fuel 0 acc = none := by
  induction fuel with
  | zero => intro acc; rfl
  | succ n ih =>
    intro acc
    have h2 : ((1 : Int) - 1) = 0 := by norm_num
    simp only [chunkLoop]
    norm_num
    exact ih _

/-- C1: for the input text "ab" with `chunk_size = 1`, `overlap = 1`,
`chunk_text` raises no validation error (only `chunk_size ≤ 0` and
`overlap < 0` are checked) and its loop never terminates: for every
iteration budget the loop is still running.  This refutes the claim that
`overlap ≥ chunk_size` fails fast; the spec's guard is missing from the
code. -/
theorem chunk_text_overlap_ge_size_loops (fuel : Nat) :
    chunk_text fuel ['a', 'b'] 1 1 = Except.ok none := by
  simp only [chunk_text]
  norm_num
  exact chunkLoop_stuck fuel []

/-- C2: for `chunk_size > 0` and `0 ≤ overlap < chunk_size`, `chunk_text`
terminates (given fuel beyond the text length) and returns the sequence
whose chunk `i` is `text[i*(chunk_size-overlap) : i*(chunk_size-overlap) +
chunk_size]`; re-running is deterministic; every chunk has length at most
`chunk_size`; the output is empty exactly when the input is; the final
chunk is the tail of the text; and concatenating the first chunk with each
later chunk minus its first `overlap` characters reconstructs the text. -/
theorem chunk_text_spec (text : List Char) (size overlap fuel : Nat)
    (hsz : 0 < size) (hov : overlap < size) (hfuel : text.length < fuel) :
    ∃ chunks,
      chunk_text fuel text (size : Int) (overlap : Int) =
        Except.ok (some chunks) ∧
      chunk_text fuel text (size : Int) (overlap : Int) =
        chunk_text fuel text (size : Int) (overlap : Int) ∧
      (∀ i, i < chunks.length →
        chunks.get? i =
          some ((text.take (i * (size - overlap) + size)).drop
            (i * (size - overlap)))) ∧
      (∀ c ∈ chunks, c.length ≤ size) ∧
      (chunks = [] ↔ text = []) ∧
      (text ≠ [] → chunks.getLast? =
        some (text.drop ((chunks.length - 1) * (size - overlap)))) ∧
      reassemble overlap chunks = text := by
  refine ⟨goodChunks text size overlap hov 0, ?_, rfl, ?_, ?_, ?_, ?_, ?_⟩
  · unfold chunk_text
    rw [if_neg (show ¬ ((size : Int) ≤ 0) from by
        exact_mod_cast Nat.not_le.mpr hsz),
      if_neg (show ¬ ((overlap : Int) < 0) from
        not_lt.mpr (Int.natCast_nonneg _))]
    have hloop := goodChunks_eq_chunkLoop text size overlap hov fuel 0 []
      (by omega)
    simp only [Nat.cast_zero] at hloop
    simp [hloop]
  · intro i hi
    simpa using goodChunks_get? text size overlap hov i 0 hi
  · exact goodChunks_length_mem text size overlap hov 0
  · rw [goodChunks_eq_nil_iff]
    simp [Nat.le_zero, List.length_eq_zero]
  · intro hne
    have h0 : 0 < text.length := List.length_pos.mpr hne
    simpa using goodChunks_getLast? text size overlap hov text.length 0
      (by omega) h0
  · exact goodChunks_reassemble text size overlap hov 0

/-- Witness for C2 at the concrete input "hello", `chunk_size = 3`,
`overlap = 1`, fuel 6 (the chunks are "hel" and "llo"). -/
theorem chunk_text_spec_witness :
    ∃ chunks,
      chunk_text 6 ['h', 'e', 'l', 'l', 'o'] ((3 : Nat) : Int)
          ((1 : Nat) : Int) =
        Except.ok (some chunks) ∧
      chunk_text 6 ['h', 'e', 'l', 'l', 'o'] ((3 : Nat) : Int)
          ((1 : Nat) : Int) =
        chunk_text 6 ['h', 'e', 'l', 'l', 'o'] ((3 : Nat) : Int)
          ((1 : Nat) : Int) ∧
      (∀ i, i < chunks.length →
        chunks.get? i =
          some ((['h', 'e', 'l', 'l', 'o'].take (i * (3 - 1) + 3)).drop
            (i * (3 - 1)))) ∧
      (∀ c ∈ chunks, c.length ≤ 3) ∧
      (chunks = [] ↔ ['h', 'e', 'l', 'l', 'o'] = ([] : List Char)) ∧
      (['h', 'e', 'l', 'l', 'o'] ≠ ([] : List Char) → chunks.getLast? =
        some (['h', 'e', 'l', 'l', 'o'].drop ((chunks.length - 1) * (3 - 1)))) ∧
      reassemble 1 chunks = ['h', 'e', 'l', 'l', 'o'] :=
  chunk_text_spec ['h', 'e', 'l', 'l', 'o'] 3 1 6 (by decide) (by decide)
    (by decide)

/-- C6: for every input, `correct_text` returns the input unchanged when
the model call raises, when the response content is `None`, and when the
content strips to the empty string; consequently it never returns the
empty string for a non-empty input. -/
theorem correct_text_fallback :
    (∀ (m : CorrectorModel) (text e : String), m text = PyResult.exn e →
      correct_text m text = text) ∧
    (∀ (m : CorrectorModel) (text : String), m text = PyResult.ok none →
      correct_text m text = text) ∧
    (∀ (m : CorrectorModel) (text c : String),
      m text = PyResult.ok (some c) → pyStrip c = "" →
      correct_text m text = text) ∧
    (∀ (m : CorrectorModel) (text : String), text ≠ "" →
      correct_text m text ≠ "") := by
  refine ⟨?_, ?_, ?_, ?_⟩
  · intro m text e hm
    unfold correct_text
    split
    · rfl
    · rw [hm]
  · intro m text hm
    unfold correct_text
    split
    · rfl
    · rw [hm]
  · intro m text c hm hc
    unfold correct_text
    split
    · rfl
    · rw [hm]
      show (if (pyStrip c).length = 0 then text else pyStrip c) = text
      rw [hc]
      simp
  · intro m text hne
    unfold correct_text
    split
    · exact hne
    · cases hm : m text with
      | exn e => exact hne
      | ok v =>
        cases v with
        | none => exact hne
        | some c =>
          show (if (pyStrip c).length = 0 then text else pyStrip c) ≠ ""
          split
          · exact hne
          · next hlen =>
            intro hcon
            rw [hcon] at hlen
            exact hlen rfl

/-- C7 counterexample: on the OCR-error sentinel input "[OCR Error: x]"
(which begins with "[OCR Error"), `correct_text` does not skip: it calls
the model and returns the model's answer, not its input. -/
theorem correct_text_sentinel_counterexample :
    correct_text alwaysFixed "[OCR Error: x]" = "FIXED" ∧
    correct_text alwaysFixed "[OCR Error: x]" ≠ "[OCR Error: x]" ∧
    pyStartsWith "[OCR Error: x]" "[OCR Error" = true := by
  refine ⟨by decide, by decide, by decide⟩

/-- C7 (amended): `correct_text` itself skips correction — returning its
input unchanged and making no model call — exactly when the input is
empty or whitespace-only; the skip for OCR-error sentinel input is
enforced one level up, in the async page pipeline, which returns sentinel
text without invoking the corrector. -/
theorem correct_text_skip_spec :
    (∀ (m m' : CorrectorModel) (text : String), pyStrip text = "" →
      correct_text m text = text ∧
      correct_text m text = correct_text m' text) ∧
    (∀ (corrM corrM' : CorrectorModel) (pv : Nat → VisionResult) (i : Nat),
      pyStartsWith (extract_text_with_vision pv).1 "[OCR Error" = true →
      process_single_page corrM pv i =
        ⟨i + 1, (extract_text_with_vision pv).1⟩ ∧
      process_single_page corrM pv i = process_single_page corrM' pv i) := by
  constructor
  · intro m m' text hstrip
    unfold correct_text
    rw [if_pos (Or.inr hstrip), if_pos (Or.inr hstrip)]
    exact ⟨rfl, rfl⟩
  · intro corrM corrM' pv i hsent
    unfold process_single_page
    rw [if_pos (Or.inr hsent), if_pos (Or.inr hsent)]
    exact ⟨rfl, rfl⟩

/-- C5 counterexample: with a model that hits the rate limit on every
attempt, the backoff sleeps actually performed are 1s and 2s — two waits
between the three attempts — not the claimed 1s, 2s, 4s. -/
theorem extract_backoff_counterexample :
    (extract_text_with_vision (fun _ => VisionResult.failure "429")).2 =
      [1, 2] ∧
    (extract_text_with_vision (fun _ => VisionResult.failure "429")).2 ≠
      [1, 2, 4] := by
  refine ⟨by decide, by decide⟩

theorem ocrError_split (e : String) :
    "[OCR Error: " ++ e ++ "]" = "[OCR Error" ++ (": " ++ e ++ "]") := by
  rw [show ("[OCR Error: " : String) = "[OCR Error" ++ ": " from rfl,
    String.append_assoc, String.append_assoc, String.append_assoc]

theorem ocrError429_split (e : String) :
    "[OCR Error: Error code: 429 - " ++ e ++ "]" =
      "[OCR Error" ++ (": Error code: 429 - " ++ e ++ "]") := by
  rw [show ("[OCR Error: Error code: 429 - " : String) =
      "[OCR Error" ++ ": Error code: 429 - " from rfl,
    String.append_assoc, String.append_assoc, String.append_assoc]

theorem extractLoop_shape (o : Nat → VisionResult) :
    ∀ r attempt waits,
      (∃ rest, (extractLoop o r attempt waits).1 = "[OCR Error" ++ rest) ∨
      (∃ k c, o k = VisionResult.success c ∧
        (extractLoop o r attempt waits).1 = pyStrip c) := by
  intro r
  induction r with
  | zero =>
    intro attempt waits
    exact Or.inl ⟨": Unknown error after retries]", rfl⟩
  | succ n ih =>
    intro attempt waits
    cases hoa : o attempt with
    | success c =>
      exact Or.inr ⟨attempt, c, hoa, by simp [extractLoop, hoa]⟩
    | failure e =>
      by_cases hre : isRateLimitError e = true
      · cases n with
        | zero =>
          refine Or.inl ⟨": Error code: 429 - " ++ e ++ "]", ?_⟩
          simp [extractLoop, hoa, hre]
          exact ocrError429_split e
        | succ m =>
          have hred : extractLoop o (m + 1 + 1) attempt waits =
              extractLoop o (m + 1) (attempt + 1) (waits ++ [2 ^ attempt]) := by
            simp [extractLoop, hoa, hre]
          rw [hred]
          exact ih (attempt + 1) (waits ++ [2 ^ attempt])
      · have hre' : isRateLimitError e = false := by
          simpa using hre
        refine Or.inl ⟨": " ++ e ++ "]", ?_⟩
        simp [extractLoop, hoa, hre']
        exact ocrError_split e

/-- C5 (amended): `extract_text_with_vision` never raises.  On immediate
success it returns the stripped model content with no waiting; on a
non-rate-limit failure it returns the sentinel immediately, with no
retry; on three rate-limit failures it waits 1s then 2s and returns the
429 sentinel; and in every case the result is either a stripped success
content or a string extending "[OCR Error". -/
theorem extract_text_with_vision_spec :
    (∀ (o : Nat → VisionResult) (c : String),
      o 0 = VisionResult.success c →
      extract_text_with_vision o = (pyStrip c, [])) ∧
    (∀ (o : Nat → VisionResult) (e : String),
      o 0 = VisionResult.failure e → isRateLimitError e = false →
      extract_text_with_vision o = ("[OCR Error: " ++ e ++ "]", [])) ∧
    (∀ (o : Nat → VisionResult) (e0 e1 e2 : String),
      o 0 = VisionResult.failure e0 → o 1 = VisionResult.failure e1 →
      o 2 = VisionResult.failure e2 → isRateLimitError e0 = true →
      isRateLimitError e1 = true → isRateLimitError e2 = true →
      extract_text_with_vision o =
        ("[OCR Error: Error code: 429 - " ++ e2 ++ "]", [1, 2])) ∧
    (∀ o : Nat → VisionResult,
      (∃ rest, (extract_text_with_vision o).1 = "[OCR Error" ++ rest) ∨
      (∃ k c, o k = VisionResult.success c ∧
        (extract_text_with_vision o).1 = pyStrip c)) := by
  refine ⟨?_, ?_, ?_, fun o => extractLoop_shape o 3 0 []⟩
  · intro o c h0
    simp [extract_text_with_vision, extractLoop, h0]
  · intro o e h0 hrl
    simp [extract_text_with_vision, extractLoop, h0, hrl]
  · intro o e0 e1 e2 h0 h1 h2 r0 r1 r2
    have s0 : extract_text_with_vision o =
        extractLoop o 2 1 [1] := by
      simp [extract_text_with_vision, extractLoop, h0, r0]
    have s1 : extractLoop o 2 1 [1] = extractLoop o 1 2 [1, 2] := by
      simp [extractLoop, h1, r1]
    have s2 : extractLoop o 1 2 [1, 2] =
        ("[OCR Error: Error code: 429 - " ++ e2 ++ "]", [1, 2]) := by
      simp [extractLoop, h2, r2]
    rw [s0, s1, s2]

theorem dropWhile_dropWhile (p : Char → Bool) (l : List Char) :
    List.dropWhile p (List.dropWhile p l) = List.dropWhile p l := by
  cases h : List.dropWhile p l with
  | nil => simp
  | cons a t =>
    have hpa := List.head?_dropWhile_not p l
    rw [h] at hpa
    simp only [List.head?_cons] at hpa
    rw [List.dropWhile_cons, hpa]
    simp

theorem reverse_dropWhile_reverse_prefix (p : Char → Bool) (l : List Char) :
    (List.dropWhile p l.reverse).reverse <+: l := by
  have h := List.reverse_prefix.mpr (@List.dropWhile_suffix _ l.reverse p)
  rw [List.reverse_reverse] at h
  exact h

theorem pyStrip_idem (s : String) : pyStrip (pyStrip s) = pyStrip s := by
  obtain ⟨l⟩ := s
  unfold pyStrip
  simp only
  set p := Char.isWhitespace
  set d := List.dropWhile p l with hd
  set t := (List.dropWhile p d.reverse).reverse with ht
  have step1 : List.dropWhile p t = t := by
    have hpre : t <+: d := reverse_dropWhile_reverse_prefix p d
    cases hcase : t with
    | nil => simp
    | cons a t' =>
      obtain ⟨k, hk⟩ := hpre
      rw [hcase] at hk
      have hpa := List.head?_dropWhile_not p l
      rw [← hd, ← hk] at hpa
      simp only [List.cons_append, List.head?_cons] at hpa
      rw [List.dropWhile_cons, hpa]
      simp
  rw [step1, ht, List.reverse_reverse, dropWhile_dropWhile]

theorem string_pos_length_iff (s : String) : s ≠ "" ↔ 0 < s.length := by
  obtain ⟨l⟩ := s
  constructor
  · intro hne
    cases l with
    | nil => exact absurd rfl hne
    | cons a t => simp [String.length]
  · intro hpos hcon
    rw [hcon] at hpos
    exact absurd hpos (by simp)

theorem correct_text_empty (m : CorrectorModel) : correct_text m "" = "" := by
  unfold correct_text
  simp

theorem correct_text_result (m : CorrectorModel) (t : String) :
    correct_text m t = t ∨
      (correct_text m t ≠ "" ∧
        0 < (pyStrip (correct_text m t)).length) := by
  unfold correct_text
  split
  · exact Or.inl rfl
  · cases hm : m t with
    | exn e => exact Or.inl rfl
    | ok v =>
      cases v with
      | none => exact Or.inl rfl
      | some c =>
        show (if (pyStrip c).length = 0 then t else pyStrip c) = t ∨
          ((if (pyStrip c).length = 0 then t else pyStrip c) ≠ "" ∧
            0 < (pyStrip (if (pyStrip c).length = 0 then t
              else pyStrip c)).length)
        by_cases hlen : (pyStrip c).length = 0
        · rw [if_pos hlen]
          exact Or.inl rfl
        · rw [if_neg hlen]
          refine Or.inr ⟨?_, ?_⟩
          · intro hcon
            rw [hcon] at hlen
            exact hlen rfl
          · rw [pyStrip_idem]
            omega

theorem process_single_page_page_number (corrM : CorrectorModel)
    (pv : Nat → VisionResult) (i : Nat) :
    (process_single_page corrM pv i).page_number = i + 1 := by
  unfold process_single_page
  dsimp only
  split
  · rfl
  · split
    · rfl
    · rfl

theorem process_single_page_of_sentinel (corrM : CorrectorModel)
    (pv : Nat → VisionResult) (i : Nat)
    (hsent : pyStartsWith (extract_text_with_vision pv).1 "[OCR Error" =
      true) :
    process_single_page corrM pv i =
      ⟨i + 1, (extract_text_with_vision pv).1⟩ := by
  unfold process_single_page
  rw [if_pos (Or.inr hsent)]

theorem process_single_page_eq_sync (corrM : CorrectorModel)
    (pv : Nat → VisionResult) (i : Nat)
    (hsent : pyStartsWith (extract_text_with_vision pv).1 "[OCR Error" =
      false) :
    process_single_page corrM pv i =
      ⟨i + 1, correct_text corrM (extract_text_with_vision pv).1⟩ := by
  unfold process_single_page
  by_cases hemp : (extract_text_with_vision pv).1 = ""
  · rw [if_pos (Or.inl hemp), hemp, correct_text_empty]
  · rw [if_neg (by simp [hemp, hsent])]
    by_cases hg : correct_text corrM (extract_text_with_vision pv).1 ≠ "" ∧
        0 < (pyStrip (correct_text corrM
          (extract_text_with_vision pv).1)).length
    · rw [if_pos hg]
    · rw [if_neg hg]
      rcases correct_text_result corrM (extract_text_with_vision pv).1 with
        heq | hcontra
      · rw [heq]
      · exact absurd hcontra hg

/-- C4: the async pipeline returns exactly `N` results whose
`page_number`s are `1..N` in physical page order (`asyncio.gather`
preserves input order); the result at position `i` is a function of page
`i`'s model responses alone, so one page's failure cannot affect the
others; and a page whose extraction produced an "[OCR Error: ...]"
sentinel appears at its position with exactly that sentinel text. -/
theorem process_pdf_async_spec :
    (∀ (corrM : CorrectorModel) (vision : Nat → Nat → VisionResult)
      (N : Nat), (process_pdf_async corrM vision N).length = N) ∧
    (∀ (corrM : CorrectorModel) (vision : Nat → Nat → VisionResult)
      (N : Nat), (process_pdf_async corrM vision N).map
        PageOCR.page_number = (List.range N).map (fun i => i + 1)) ∧
    (∀ (corrM : CorrectorModel) (vision : Nat → Nat → VisionResult)
      (N i : Nat), i < N → (process_pdf_async corrM vision N).get? i =
        some (process_single_page corrM (vision i) i)) ∧
    (∀ (corrM : CorrectorModel) (vision : Nat → Nat → VisionResult)
      (N i : Nat), i < N →
      pyStartsWith (extract_text_with_vision (vision i)).1 "[OCR Error" =
        true →
      (process_pdf_async corrM vision N).get? i =
        some ⟨i + 1, (extract_text_with_vision (vision i)).1⟩) := by
  refine ⟨?_, ?_, ?_, ?_⟩
  · intro corrM vision N
    simp [process_pdf_async]
  · intro corrM vision N
    unfold process_pdf_async
    rw [List.map_map]
    apply List.map_congr_left
    intro i _
    exact process_single_page_page_number corrM (vision i) i
  · intro corrM vision N i hi
    unfold process_pdf_async
    rw [List.get?_map, List.get?_range hi]
    rfl
  · intro corrM vision N i hi hsent
    unfold process_pdf_async
    rw [List.get?_map, List.get?_range hi]
    show some (process_single_page corrM (vision i) i) = _
    rw [process_single_page_of_sentinel corrM (vision i) i hsent]

/-- C9 counterexample: with a corrector model that answers "FIXED" and a
vision model that fails every attempt with the non-rate-limit error
"boom", on a 1-page document the synchronous pipeline corrects the
sentinel into "FIXED" while the asynchronous pipeline returns the
sentinel untouched — the two pipelines disagree given identical model
responses. -/
theorem process_pdf_sync_async_counterexample :
    process_pdf alwaysFixed alwaysBoom 1 ≠
      process_pdf_async alwaysFixed alwaysBoom 1 ∧
    process_pdf alwaysFixed alwaysBoom 1 = [⟨1, "FIXED"⟩] ∧
    process_pdf_async alwaysFixed alwaysBoom 1 =
      [⟨1, "[OCR Error: boom]"⟩] := by
  refine ⟨by decide, by decide, by decide⟩

/-- C9 (amended): given the same model responses, the synchronous and
asynchronous pipelines produce the same `PageOCR` sequence provided no
page's extracted text is an "[OCR Error" sentinel.  (On a sentinel page
they diverge: the sync pipeline still passes the sentinel through
`correct_text`, the async pipeline returns it untouched — see the
counterexample.) -/
theorem process_pdf_sync_async_agree
    (corrM : CorrectorModel) (vision : Nat → Nat → VisionResult) (N : Nat)
    (hns : ∀ i, i < N →
      pyStartsWith (extract_text_with_vision (vision i)).1 "[OCR Error" =
        false) :
    process_pdf corrM vision N = process_pdf_async corrM vision N := by
  unfold process_pdf process_pdf_async
  apply List.map_congr_left
  intro i hi
  exact (process_single_page_eq_sync corrM (vision i) i
    (hns i (List.mem_range.mp hi))).symm

/-- Witness for C9's amended equivalence: a 2-page document whose pages
both succeed with plain text. -/
theorem process_pdf_sync_async_agree_witness :
    process_pdf alwaysFixed (fun _ _ => VisionResult.success "hello") 2 =
      process_pdf_async alwaysFixed
        (fun _ _ => VisionResult.success "hello") 2 :=
  process_pdf_sync_async_agree alwaysFixed
    (fun _ _ => VisionResult.success "hello") 2
    (fun _ _ => (by decide : pyStartsWith
      (extract_text_with_vision (fun _ => VisionResult.success "hello")).1
      "[OCR Error" = false))

theorem storeKeys_upsertOne {β : Type} (st : List (String × β))
    (v : String × β) :
    storeKeys (upsertOne st v) =
      if v.1 ∈ storeKeys st then storeKeys st
      else storeKeys st ++ [v.1] := by
  unfold upsertOne storeKeys
  by_cases hm : v.1 ∈ st.map Prod.fst
  · rw [if_pos hm, if_pos hm, List.map_map]
    apply List.map_congr_left
    intro p _
    by_cases hp : p.1 = v.1
    · simp [hp]
    · simp [hp]
  · rw [if_neg hm, if_neg hm]
    simp

theorem storeKeys_foldl_upsert {β : Type} :
    ∀ (vs : List (String × β)) (st : List (String × β)),
      storeKeys (vs.foldl upsertOne st) =
        addKeys (storeKeys st) (vs.map Prod.fst) := by
  intro vs
  induction vs with
  | nil => intro st; rfl
  | cons v vs ih =>
    intro st
    show storeKeys (vs.foldl upsertOne (upsertOne st v)) =
      addKeys (storeKeys st) (v.1 :: vs.map Prod.fst)
    rw [ih, storeKeys_upsertOne]
    rfl

theorem mem_addKeys_left :
    ∀ (I K : List String) (a : String), a ∈ K → a ∈ addKeys K I := by
  intro I
  induction I with
  | nil => intro K a ha; exact ha
  | cons k I ih =>
    intro K a ha
    show a ∈ addKeys (if k ∈ K then K else K ++ [k]) I
    by_cases hk : k ∈ K
    · rw [if_pos hk]; exact ih K a ha
    · rw [if_neg hk]; exact ih _ a (List.mem_append_left _ ha)

theorem mem_addKeys_right :
    ∀ (I K : List String) (a : String), a ∈ I → a ∈ addKeys K I := by
  intro I
  induction I with
  | nil => intro K a ha; exact absurd ha (List.not_mem_nil a)
  | cons k I ih =>
    intro K a ha
    show a ∈ addKeys (if k ∈ K then K else K ++ [k]) I
    rcases List.mem_cons.mp ha with rfl | hin
    · by_cases hk : a ∈ K
      · rw [if_pos hk]; exact mem_addKeys_left I K a hk
      · rw [if_neg hk]
        exact mem_addKeys_left I _ a
          (List.mem_append_right _ (List.mem_singleton_self a))
    · by_cases hk : k ∈ K
      · rw [if_pos hk]; exact ih K a hin
      · rw [if_neg hk]; exact ih _ a hin

theorem addKeys_of_subset :
    ∀ (I K : List String), (∀ a ∈ I, a ∈ K) → addKeys K I = K := by
  intro I
  induction I with
  | nil => intro K _; rfl
  | cons k I ih =>
    intro K hsub
    show addKeys (if k ∈ K then K else K ++ [k]) I = K
    rw [if_pos (hsub k (List.mem_cons_self k I))]
    exact ih K (fun a ha => hsub a (List.mem_cons_of_mem k ha))

theorem enum_map_proj (l : List (List Char)) (g : Nat → String) :
    l.enum.map (fun ic => g ic.1) = (List.range l.length).map g := by
  rw [← List.enum_map_fst l, List.map_map]
  rfl

theorem vectorsFor_ids {V : Type} (md5hex : String → String)
    (embed : List Char → V) (pdf_name : String) (pages : List PageOCR) :
    (vectorsFor md5hex embed pdf_name pages).map Prod.fst =
      idsFromShape md5hex pdf_name
        (pages.map (fun p =>
          (p.page_number, (pageChunks p.MD_text.data).length))) := by
  unfold vectorsFor idsFromShape
  rw [List.map_flatten, List.map_map, List.map_map]
  congr 1
  apply List.map_congr_left
  intro p _
  show ((pageChunks p.MD_text.data).enum.map _).map Prod.fst = _
  rw [List.map_map]
  exact enum_map_proj (pageChunks p.MD_text.data)
    (generate_id md5hex pdf_name p.page_number)

/-- C3: the storage id of a chunk is a function of
`(document name, page number, chunk index)` alone — every record built by
`ingest_pdf` carries the id generated from its own metadata triple, and
the id list depends only on the document name and the per-page
`(page_number, chunk_count)` shape, not on chunk contents or embeddings;
consequently ingesting the same document twice leaves exactly the same
key list (same vector ids, same stored chunk count) as ingesting it
once. -/
theorem ingest_pdf_ids_idempotent :
    (∀ (V : Type) (md5hex : String → String) (embed : List Char → V)
      (pdf_name : String) (pages : List PageOCR),
      ∀ v ∈ vectorsFor md5hex embed pdf_name pages,
        v.1 = generate_id md5hex pdf_name v.2.2.page_number
          v.2.2.chunk_index) ∧
    (∀ (V W : Type) (md5hex : String → String) (embed : List Char → V)
      (embed' : List Char → W) (pdf_name : String)
      (pages pages' : List PageOCR),
      pages.map (fun p =>
          (p.page_number, (pageChunks p.MD_text.data).length)) =
        pages'.map (fun p =>
          (p.page_number, (pageChunks p.MD_text.data).length)) →
      (vectorsFor md5hex embed pdf_name pages).map Prod.fst =
        (vectorsFor md5hex embed' pdf_name pages').map Prod.fst) ∧
    (∀ (V : Type) (md5hex : String → String) (embed : List Char → V)
      (pdf_name : String) (pages : List PageOCR)
      (st : List (String × (V × ChunkMeta))),
      storeKeys (ingest_pdf md5hex embed pdf_name pages
          (ingest_pdf md5hex embed pdf_name pages st)) =
        storeKeys (ingest_pdf md5hex embed pdf_name pages st) ∧
      (ingest_pdf md5hex embed pdf_name pages
          (ingest_pdf md5hex embed pdf_name pages st)).length =
        (ingest_pdf md5hex embed pdf_name pages st).length) := by
  refine ⟨?_, ?_, ?_⟩
  · intro V md5hex embed pdf_name pages v hv
    unfold vectorsFor at hv
    rw [List.mem_flatten] at hv
    obtain ⟨inner, hinner, hvin⟩ := hv
    rw [List.mem_map] at hinner
    obtain ⟨p, hp, rfl⟩ := hinner
    rw [List.mem_map] at hvin
    obtain ⟨ic, hic, rfl⟩ := hvin
    rfl
  · intro V W md5hex embed embed' pdf_name pages pages' hshape
    rw [vectorsFor_ids, vectorsFor_ids, hshape]
  · intro V md5hex embed pdf_name pages st
    have hkeys : storeKeys (ingest_pdf md5hex embed pdf_name pages
        (ingest_pdf md5hex embed pdf_name pages st)) =
        storeKeys (ingest_pdf md5hex embed pdf_name pages st) := by
      unfold ingest_pdf
      rw [storeKeys_foldl_upsert, storeKeys_foldl_upsert]
      apply addKeys_of_subset
      intro a ha
      exact mem_addKeys_right _ _ _ ha
    refine ⟨hkeys, ?_⟩
    have := congrArg List.length hkeys
    simpa [storeKeys] using this

theorem pyTake_length (s : String) (n : Nat) :
    (pyTake s n).length = min n s.length := by
  obtain ⟨l⟩ := s
  simp [pyTake, String.length]

/-- C8: given the vector-index contract — the query returns
`min top_k index_size` matches, ordered by similarity descending —
`search` returns at most `top_k` sources (fewer exactly when the index
holds fewer), the `i`-th source is the projection of the `i`-th match (so
the order is highest similarity first), and each source's content is the
stored chunk when it fits in `max_content_length` characters, else its
first `max_content_length` characters with the "..." marker appended. -/
theorem search_spec (qmatches : List QueryMatch)
    (top_k index_size max_content_length : Nat)
    (hcount : qmatches.length = min top_k index_size)
    (hsorted : List.Pairwise (fun a b => b ≤ a)
      (qmatches.map QueryMatch.score)) :
    (search qmatches max_content_length).length ≤ top_k ∧
    ((search qmatches max_content_length).length < top_k →
      index_size < top_k) ∧
    (∀ i, (search qmatches max_content_length).get? i =
      (qmatches.get? i).map (matchToSource max_content_length)) ∧
    (∀ i j (hi : i < qmatches.length) (hj : j < qmatches.length), i < j →
      (qmatches.get ⟨j, hj⟩).score ≤ (qmatches.get ⟨i, hi⟩).score) ∧
    (∀ s ∈ search qmatches max_content_length, ∃ m ∈ qmatches,
      s = matchToSource max_content_length m ∧
      ((m.content.length ≤ max_content_length ∧ s.content = m.content) ∨
        (max_content_length < m.content.length ∧
          s.content = pyTake m.content max_content_length ++ "..." ∧
          s.content.length = max_content_length + 3))) := by
  refine ⟨?_, ?_, ?_, ?_, ?_⟩
  · simp only [search, List.length_map]
    omega
  · simp only [search, List.length_map]
    omega
  · intro i
    simp [search, List.get?_map]
  · intro i j hi hj hij
    have h := List.pairwise_iff_get.mp hsorted
      ⟨i, by simpa using hi⟩ ⟨j, by simpa using hj⟩ hij
    simpa [List.get_map] using h
  · intro s hs
    rw [search, List.mem_map] at hs
    obtain ⟨m, hm, rfl⟩ := hs
    refine ⟨m, hm, rfl, ?_⟩
    by_cases hlen : max_content_length < m.content.length
    · refine Or.inr ⟨hlen, ?_, ?_⟩
      · simp [matchToSource, hlen]
      · simp only [matchToSource, if_pos hlen]
        rw [String.length_append, pyTake_length]
        have : ("..." : String).length = 3 := rfl
        omega
    · refine Or.inl ⟨by omega, ?_⟩
      simp [matchToSource, hlen]

/-- Witness for C8 at a concrete two-entry index queried with
`top_k = 3`, `max_content_length = 4`: the matches (scores 2 then 1)
yield two sources, the first truncated to "hell...". -/
theorem search_spec_witness :
    (search [⟨2, "a.pdf", 1, "hello"⟩, ⟨1, "b.pdf", 2, "hi"⟩] 4).length ≤
      3 ∧
    ((search [⟨2, "a.pdf", 1, "hello"⟩, ⟨1, "b.pdf", 2, "hi"⟩] 4).length <
      3 → 2 < 3) ∧
    (∀ i, (search [⟨2, "a.pdf", 1, "hello"⟩, ⟨1, "b.pdf", 2, "hi"⟩]
        4).get? i =
      (([⟨2, "a.pdf", 1, "hello"⟩, ⟨1, "b.pdf", 2, "hi"⟩] :
        List QueryMatch).get? i).map (matchToSource 4)) ∧
    (∀ i j (hi : i < ([⟨2, "a.pdf", 1, "hello"⟩, ⟨1, "b.pdf", 2, "hi"⟩] :
        List QueryMatch).length)
      (hj : j < ([⟨2, "a.pdf", 1, "hello"⟩, ⟨1, "b.pdf", 2, "hi"⟩] :
        List QueryMatch).length), i < j →
      (([⟨2, "a.pdf", 1, "hello"⟩, ⟨1, "b.pdf", 2, "hi"⟩] :
        List QueryMatch).get ⟨j, hj⟩).score ≤
        (([⟨2, "a.pdf", 1, "hello"⟩, ⟨1, "b.pdf", 2, "hi"⟩] :
          List QueryMatch).get ⟨i, hi⟩).score) ∧
    (∀ s ∈ search [⟨2, "a.pdf", 1, "hello"⟩, ⟨1, "b.pdf", 2, "hi"⟩] 4,
      ∃ m ∈ ([⟨2, "a.pdf", 1, "hello"⟩, ⟨1, "b.pdf", 2, "hi"⟩] :
        List QueryMatch),
      s = matchToSource 4 m ∧
      ((m.content.length ≤ 4 ∧ s.content = m.content) ∨
        (4 < m.content.length ∧
          s.content = pyTake m.content 4 ++ "..." ∧
          s.content.length = 4 + 3))) :=
  search_spec [⟨2, "a.pdf", 1, "hello"⟩, ⟨1, "b.pdf", 2, "hi"⟩] 3 2 4
    (by decide) (by decide)

/-- C10: `chat` issues the knowledge-base search with exactly the content
of the most recent user message; two histories whose most recent user
messages have the same content retrieve the same sources regardless of
their other turns (which reach only the generation model); and with no
user message in the history `chat` returns the fixed notice answer with
an empty source list, independent of both the search and the generation
models (neither is called). -/
theorem chat_spec :
    (∀ (searchO : String → Nat → List Source)
      (genO : List ChatMessage → List Source → String) (top_k : Nat)
      (messages : List ChatMessage) (m : ChatMessage),
      (messages.filter (fun x => x.role == "user")).getLast? = some m →
      chat searchO genO top_k messages =
        ⟨searchO m.content top_k,
          genO messages (searchO m.content top_k)⟩) ∧
    (∀ (searchO : String → Nat → List Source)
      (genO genO' : List ChatMessage → List Source → String) (top_k : Nat)
      (messages messages' : List ChatMessage) (m m' : ChatMessage),
      (messages.filter (fun x => x.role == "user")).getLast? = some m →
      (messages'.filter (fun x => x.role == "user")).getLast? = some m' →
      m.content = m'.content →
      (chat searchO genO top_k messages).sources =
        (chat searchO genO' top_k messages').sources) ∧
    (∀ (searchO searchO' : String → Nat → List Source)
      (genO genO' : List ChatMessage → List Source → String) (top_k : Nat)
      (messages : List ChatMessage),
      messages.filter (fun x => x.role == "user") = [] →
      chat searchO genO top_k messages =
        ⟨[], "No user message found in chat history."⟩ ∧
      chat searchO genO top_k messages =
        chat searchO' genO' top_k messages) := by
  refine ⟨?_, ?_, ?_⟩
  · intro searchO genO top_k messages m hlast
    unfold chat
    dsimp only
    rw [hlast]
  · intro searchO genO genO' top_k messages messages' m m' hlast hlast'
      hcontent
    unfold chat
    dsimp only
    rw [hlast, hlast']
    show (searchO m.content top_k) = (searchO m'.content top_k)
    rw [hcontent]
  · intro searchO searchO' genO genO' top_k messages hempty
    unfold chat
    dsimp only
    rw [hempty]
    exact ⟨rfl, rfl⟩

end Hackathon
